import Mathlib

/-!
Verification of the conversational agent loop in
`simple-server-setup/client_sse.py` (class `MCPOpenAIClient`).

The embedding models the orchestration loop as pure functions over an
explicit client state.  External collaborators (the chat model, the
summarizer call, the remote tool backend, and the completion order of the
concurrently dispatched tool calls of a round) are supplied by an
environment of oracles indexed by process-wide call counters, so that any
concrete execution trace of the Python program corresponds to one
environment value.

Concurrency model for one round (`asyncio.gather` over `run_one`
coroutines): every coroutine runs synchronously, in request order, up to
its first `await` (argument parsing, cache lookup, and — on a miss — the
dispatch of the remote call); a coroutine that hits the cache finishes
without suspending.  Cache writes happen when a suspended coroutine
resumes, i.e. after all first phases have run, in an arbitrary completion
order; `gather` reassembles results in request order.
-/

namespace ClientSse

/- JSON values, the possible results of `json.loads` on an arguments text.
Arrays and objects are mutual inductives so that decidable equality can be
derived. -/
mutual
inductive JValue where
  | null
  | bool (b : Bool)
  | num (n : Int)
  | str (s : String)
  | arr (xs : JList)
  | obj (fs : JFields)
inductive JList where
  | nil
  | cons (hd : JValue) (tl : JList)
inductive JFields where
  | nil
  | cons (k : String) (v : JValue) (tl : JFields)
end

deriving instance DecidableEq for JValue, JList, JFields

/-- The fields of a JSON object as an association list (`dict.items()`). -/
def JFields.toList : JFields → List (String × JValue)
  | .nil => []
  | .cons k v tl => (k, v) :: tl.toList

/-- Whether a parsed value is a JSON object (a Python `dict`). -/
def JValue.isObj : JValue → Bool
  | .obj _ => true
  | _ => false

/-- Outcome of `json.loads` on the argument text of a tool call. -/
inductive ParseResult where
  | failure
  | success (v : JValue)
deriving DecidableEq

/-- One tool call requested by the model: `tc.id`, `tc.function.name`,
`tc.function.arguments` (the raw text, kept for serialization) and the
result of `json.loads` on that text. -/
structure ToolCall where
  id : String
  name : String
  argsText : String
  argsParse : ParseResult
deriving DecidableEq

inductive Role where
  | system
  | user
  | assistant
  | tool
deriving DecidableEq

/-- A plain message dict.  `toolCalls = none` models a dict without a
`tool_calls` key, `some none` models `"tool_calls": null`, and
`some (some l)` a list of tool calls; similarly `toolCallId` is present
only on tool-role messages. -/
structure Message where
  role : Role
  content : String
  toolCalls : Option (Option (List ToolCall))
  toolCallId : Option String
deriving DecidableEq

/-- Exceptions that can escape the embedded code. -/
inductive PyErr where
  | notConnected
  | attributeError
  | toolCallError (msg : String)
  | summarizeFailure (msg : String)
deriving DecidableEq

/-- The value returned by `session.call_tool`: the optional `.text` of each
content item, plus the `str(result)` fallback representation. -/
structure ToolResult where
  contentTexts : List (Option String)
  reprStr : String
deriving DecidableEq

/-- Embeds `"\n".join(parts) or str(result)` where `parts` collects the
truthy `.text` fields of the result content. -/
def toolText (r : ToolResult) : String :=
  let parts := r.contentTexts.filterMap (fun t => t.bind (fun s => if s = "" then none else some s))
  if parts.isEmpty then r.reprStr else String.intercalate "\n" parts

/-- Embeds `sorted(args.items())`: the Python stable sort on pairs compares
keys first; dict item lists have pairwise-distinct keys, so the key
comparison always decides. -/
def sortPairs (l : List (String × JValue)) : List (String × JValue) :=
  l.insertionSort (fun a b => a.1 ≤ b.1)

instance : IsTotal (String × JValue) (fun a b => a.1 ≤ b.1) :=
  ⟨fun a b => le_total a.1 b.1⟩

instance : IsTrans (String × JValue) (fun a b => a.1 ≤ b.1) :=
  ⟨fun _ _ _ h1 h2 => le_trans h1 h2⟩

instance : IsAntisymm (String × JValue) (fun a b => a.1 < b.1) :=
  ⟨fun _ _ h1 h2 => absurd h2 (lt_asymm h1)⟩

/-- Embeds `cache_key = (name, tuple(sorted(args.items())))`. -/
def cacheKeyOf (name : String) (fs : List (String × JValue)) : String × List (String × JValue) :=
  (name, sortPairs fs)

abbrev CacheKey := String × List (String × JValue)

abbrev Cache := List (CacheKey × String)

/-- Dict lookup in `_tool_result_cache` (newest binding shadows older). -/
def cacheLookup : Cache → CacheKey → Option String
  | [], _ => none
  | (k2, v) :: rest, k => if k2 = k then some v else cacheLookup rest k

/-- Dict assignment `_tool_result_cache[key] = text`. -/
def cacheInsert (c : Cache) (k : CacheKey) (v : String) : Cache :=
  (k, v) :: c

/-- Embeds `args.items()`: succeeds on a dict, raises `AttributeError`
otherwise. -/
def itemsOf : JValue → Except PyErr (List (String × JValue))
  | .obj fs => .ok fs.toList
  | _ => .error .attributeError

/-- Embeds `try: args = json.loads(args_json) except Exception: args =
\x7b\x7d`. -/
def parseArgs : ParseResult → JValue
  | .failure => .obj .nil
  | .success v => v

/-- One model response: `message.content` and `message.tool_calls or []`. -/
structure ModelStep where
  content : Option String
  toolCalls : List ToolCall

/-- The external world: the chat model indexed by the count of round-loop
completion calls, the summarization completion call indexed by its own
count (receiving the serialized history), the remote tool backend indexed
by the process-wide invocation count, and the completion schedule of each
concurrent batch of each round. -/
structure Env where
  modelStep : Nat → ModelStep
  summarize : Nat → String → Except String String
  backend : Nat → String → List (String × JValue) → Except String ToolResult
  sched : Nat → List Nat

/-- The tool-role result dict `\x7b"role": "tool", "tool_call_id": id,
"content": text\x7d`. -/
def toolMsg (id text : String) : Message :=
  ⟨.tool, text, none, some id⟩

instance {ε α : Type} [DecidableEq ε] [DecidableEq α] : DecidableEq (Except ε α) := fun a b =>
  match a, b with
  | .ok x, .ok y =>
    if h : x = y then .isTrue (by rw [h]) else .isFalse (fun he => by cases he; exact h rfl)
  | .ok _, .error _ => .isFalse (fun he => by cases he)
  | .error _, .ok _ => .isFalse (fun he => by cases he)
  | .error x, .error y =>
    if h : x = y then .isTrue (by rw [h]) else .isFalse (fun he => by cases he; exact h rfl)

/-- The state of one `run_one` coroutine after its synchronous first phase:
finished on a cache hit, suspended on a dispatched remote call, or failed
while computing the cache key. -/
inductive Task where
  | hit (id : String) (text : String)
  | miss (id : String) (key : CacheKey) (res : Except String ToolResult)
  | argErr (id : String)
deriving DecidableEq

def Task.isArgErr : Task → Bool
  | .argErr _ => true
  | _ => false

/-- The suspended remote call of a task, if any. -/
def Task.pend : Task → Option (CacheKey × Except String ToolResult)
  | .miss _ key res => some (key, res)
  | _ => none

/-- The tool message a task contributes; the content of a failed task is
immaterial because the round then raises instead of using it. -/
def Task.msg : Task → Message
  | .hit id t => toolMsg id t
  | .miss id _ (.ok r) => toolMsg id (toolText r)
  | .miss id _ (.error _) => toolMsg id ""
  | .argErr id => toolMsg id ""

/-- The call identifier a task answers. -/
def Task.idOf : Task → String
  | .hit id _ => id
  | .miss id _ _ => id
  | .argErr id => id

/-- Whether a task finishes without raising. -/
def Task.ok? : Task → Bool
  | .hit _ _ => true
  | .miss _ _ (.ok _) => true
  | .miss _ _ (.error _) => false
  | .argErr _ => false

/-- A tool call whose argument text either fails to parse or parses to an
object: exactly the requests whose `run_one` cannot raise while computing
the cache key. -/
def ToolCall.wellShaped (tc : ToolCall) : Bool :=
  match tc.argsParse with
  | .failure => true
  | .success v => v.isObj

/-- Every remote tool call succeeds. -/
def BackendTotal (env : Env) : Prop :=
  ∀ n nm args, ∃ r, env.backend n nm args = .ok r

/-- Every summarization completion call succeeds. -/
def SummarizeTotal (env : Env) : Prop :=
  ∀ n s, ∃ t, env.summarize n s = .ok t

/-- Every tool request the model ever emits is well-shaped. -/
def AllWellShaped (env : Env) : Prop :=
  ∀ n, ∀ tc ∈ (env.modelStep n).toolCalls, tc.wellShaped = true

/-- Phase one of a round: each `run_one`, in request order, parses its
arguments, computes its cache key, and either finishes on a hit or
dispatches its remote call (incrementing the process-wide invocation
count).  No cache write happens yet, so every lookup sees the cache as of
the start of the round. -/
def phase1 (env : Env) (cache : Cache) : List ToolCall → Nat → List Task × Nat
  | [], n => ([], n)
  | tc :: rest, n =>
    match itemsOf (parseArgs tc.argsParse) with
    | .error _ =>
      let p := phase1 env cache rest n
      (.argErr tc.id :: p.1, p.2)
    | .ok fs =>
      match cacheLookup cache (cacheKeyOf tc.name fs) with
      | some t =>
        let p := phase1 env cache rest n
        (.hit tc.id t :: p.1, p.2)
      | none =>
        let p := phase1 env cache rest (n + 1)
        (.miss tc.id (cacheKeyOf tc.name fs) (env.backend n tc.name fs) :: p.1, p.2)

/-- Canonical completion order: an arbitrary schedule hint is normalized to
a permutation of the pending-task indices, so every real completion order
is represented and nothing else is. -/
def mkOrder (σ : List Nat) (k : Nat) : List Nat :=
  (σ.filter (fun i => decide (i < k))).dedup
    ++ (List.range k).filter (fun i => decide (i ∉ σ))

/-- Phase two cache effects: each resumed coroutine whose remote call
succeeded writes its text into the cache, in completion order. -/
def applyWrites (pend : List (CacheKey × Except String ToolResult)) (ord : List Nat)
    (cache : Cache) : Cache :=
  ord.foldl (fun c i =>
    match pend.get? i with
    | some (key, .ok r) => cacheInsert c key (toolText r)
    | _ => c) cache

/-- The first remote-call failure delivered in completion order. -/
def firstPendErr (pend : List (CacheKey × Except String ToolResult)) (ord : List Nat) :
    Option String :=
  ord.findSome? (fun i =>
    match pend.get? i with
    | some (_, .error e) => some e
    | _ => none)

structure RoundOut where
  result : Except PyErr (List Message)
  cache : Cache
  calls : Nat
deriving DecidableEq

/-- Embeds `await asyncio.gather(*[run_one(tc) for tc in tool_calls])`: run all
first phases in request order, apply the successful writes in completion
order, and either propagate the first raised exception (a phase-one
`AttributeError` precedes any remote-call failure) or return the tool
messages in request order. -/
def runRound (env : Env) (cache : Cache) (ctr : Nat) (tcs : List ToolCall) (σ : List Nat) :
    RoundOut :=
  let p := phase1 env cache tcs ctr
  let pend := p.1.filterMap Task.pend
  let ord := mkOrder σ pend.length
  let cache2 := applyWrites pend ord cache
  let res : Except PyErr (List Message) :=
    if p.1.any Task.isArgErr then .error .attributeError
    else
      match firstPendErr pend ord with
      | some e => .error (.toolCallError e)
      | none => .ok (p.1.map Task.msg)
  ⟨res, cache2, p.2⟩

/-- The state `\x7b"history": [], "summary": ""\x7d` kept per session id. -/
structure SessionState where
  history : List Message
  summary : String
deriving DecidableEq

/-- The process-wide mutable state of `MCPOpenAIClient`: whether an MCP
session is bound, the tool-result cache, the session store, and the call
counters indexing the oracles. -/
structure ClientState where
  hasSession : Bool
  toolCache : Cache
  sessions : List (String × SessionState)
  backendCalls : Nat
  roundCalls : Nat
  sumCalls : Nat
deriving DecidableEq

/-- Dict lookup in `self.sessions` (newest binding shadows older). -/
def sessLookup : List (String × SessionState) → String → Option SessionState
  | [], _ => none
  | (k2, v) :: rest, k => if k2 = k then some v else sessLookup rest k

/-- The session state seen for `session_id` (dict lookup, default fresh). -/
def getSess (st : ClientState) (sid : String) : SessionState :=
  (sessLookup st.sessions sid).getD ⟨[], ""⟩

/-- Embeds `_get_session_state`: registers a fresh state on first use. -/
def registerSession (st : ClientState) (sid : String) : ClientState :=
  if (sessLookup st.sessions sid).isSome then st
  else { st with sessions := (sid, ⟨[], ""⟩) :: st.sessions }

def hexDigit (n : Nat) : Char :=
  if n < 10 then Char.ofNat (48 + n) else Char.ofNat (87 + n)

/-- JSON string escaping as `json.dumps(..., ensure_ascii=False)` does it. -/
def jsonEscapeChar (c : Char) : String :=
  if c = '"' then "\\\""
  else if c = '\\' then "\\\\"
  else if c = '\n' then "\\n"
  else if c = '\t' then "\\t"
  else if c = '\r' then "\\r"
  else if c.toNat = 8 then "\\b"
  else if c.toNat = 12 then "\\f"
  else if c.toNat < 32 then "\\u00" ++ String.mk [hexDigit (c.toNat / 16), hexDigit (c.toNat % 16)]
  else String.singleton c

def jsonStr (s : String) : String :=
  "\"" ++ String.join (s.data.map jsonEscapeChar) ++ "\""

def Role.toJson : Role → String
  | .system => "system"
  | .user => "user"
  | .assistant => "assistant"
  | .tool => "tool"

def serializeToolCall (tc : ToolCall) : String :=
  "\x7b\"id\": " ++ jsonStr tc.id
    ++ ", \"type\": \"function\", \"function\": \x7b\"name\": " ++ jsonStr tc.name
    ++ ", \"arguments\": " ++ jsonStr tc.argsText ++ "\x7d\x7d"

/-- The `json.dumps` text of one message dict, keys in insertion order. -/
def serializeMsg (m : Message) : String :=
  "\x7b\"role\": " ++ jsonStr m.role.toJson
    ++ (match m.toolCallId with
        | some cid => ", \"tool_call_id\": " ++ jsonStr cid
        | none => "")
    ++ ", \"content\": " ++ jsonStr m.content
    ++ (match m.toolCalls with
        | none => ""
        | some none => ", \"tool_calls\": null"
        | some (some l) =>
          ", \"tool_calls\": [" ++ String.intercalate ", " (l.map serializeToolCall) ++ "]")
    ++ "\x7d"

/-- Embeds `json.dumps(session_state["history"], ensure_ascii=False)`. -/
def serializeHistory (h : List Message) : String :=
  "[" ++ String.intercalate ", " (h.map serializeMsg) ++ "]"

/-- Embeds `_summarize_if_needed(session_state, max_chars=8000, ...)`: no-op below
the threshold; otherwise one summarization completion call, whose success
replaces the summary and trims the history to its last 6 entries
(`history[-6:]`), and whose failure propagates after the call was made.
Returns the outcome together with the updated summarization-call count. -/
def summarizeIfNeeded (env : Env) (n : Nat) (state : SessionState) (maxChars : Nat) :
    Except String SessionState × Nat :=
  let serialized := serializeHistory state.history
  if serialized.length < maxChars then (.ok state, n)
  else
    match env.summarize n serialized with
    | .error e => (.error e, n + 1)
    | .ok summary =>
      (.ok ⟨state.history.drop (state.history.length - 6), summary⟩, n + 1)

def fallbackText : String :=
  "Sorry, I couldn\x27t complete this in time. Please try again."

def mkUserMsg (q : String) : Message :=
  ⟨.user, q, none, none⟩

/-- The dict `\x7b"role": "assistant", "content": fallback\x7d` with no
`tool_calls` key. -/
def fallbackMsg : Message :=
  ⟨.assistant, fallbackText, none, none⟩

/-- Embeds `_assistant_to_dict`: the `tool_calls` key is always present, `null`
when the response carried no tool calls. -/
def assistantDict (step : ModelStep) : Message :=
  ⟨.assistant, step.content.getD "",
    some (if step.toolCalls.isEmpty then none else some step.toolCalls), none⟩

def systemMsg : Message :=
  ⟨.system,
    "You can use MCP tools. Keep calling tools until the user request is fully completed. Only send a final assistant message when all required tools have been called and their results are incorporated. If essential info is missing, ask the user.",
    none, none⟩

/-- The message sequence assembled at the start of `process_query`. -/
def initialMessages (ss : SessionState) (q : String) : List Message :=
  [systemMsg]
    ++ (if ss.summary = "" then []
        else [⟨.system, "Conversation summary:\n" ++ ss.summary, none, none⟩])
    ++ ss.history.drop (ss.history.length - 10)
    ++ [mkUserMsg q]

/-- Write the session state back into the store and record the
summarization-call count. -/
def commit (st : ClientState) (sid : String) (ss : SessionState) (n : Nat) : ClientState :=
  { st with sessions := (sid, ss) :: st.sessions, sumCalls := n }

/-- The terminal path of a turn: extend the history with the user message
and the terminal assistant message, run the compactor, and either return
the terminal text or propagate the summarization failure (the history
extension has already happened either way). -/
def finishTurn (env : Env) (st : ClientState) (sid : String) (ss : SessionState)
    (userMsg finalMsg : Message) (text : String) : Except PyErr String × ClientState :=
  let ssExt : SessionState := ⟨ss.history ++ [userMsg, finalMsg], ss.summary⟩
  match summarizeIfNeeded env st.sumCalls ssExt 8000 with
  | (.ok ss2, n2) => (.ok text, commit st sid ss2 n2)
  | (.error e, n2) => (.error (.summarizeFailure e), commit st sid ssExt n2)

/-- The `for round_idx in range(max_rounds)` loop of `process_query`:
`fuel` counts the remaining rounds; exhaustion takes the fallback path. -/
def pqLoop (env : Env) (sid : String) (userMsg : Message) :
    ClientState → SessionState → List Message → Nat → Except PyErr String × ClientState
  | st, ss, _, 0 => finishTurn env st sid ss userMsg fallbackMsg fallbackText
  | st, ss, msgs, fuel + 1 =>
    let step := env.modelStep st.roundCalls
    let σ := env.sched st.roundCalls
    let st1 := { st with roundCalls := st.roundCalls + 1 }
    let adict := assistantDict step
    let msgs1 := msgs ++ [adict]
    if step.toolCalls.isEmpty then
      finishTurn env st1 sid ss userMsg adict (step.content.getD "")
    else
      let out := runRound env st1.toolCache st1.backendCalls step.toolCalls σ
      let st2 := { st1 with toolCache := out.cache, backendCalls := out.calls }
      match out.result with
      | .error e => (.error e, st2)
      | .ok tmsgs => pqLoop env sid userMsg st2 ss (msgs1 ++ tmsgs) fuel

/-- Embeds `process_query(query, session_id=sid, max_rounds=maxRounds)` (defaults:
`session_id="default"`, `max_rounds=6`). -/
def process_query (env : Env) (st : ClientState) (sid q : String) (maxRounds : Nat) :
    Except PyErr String × ClientState :=
  if st.hasSession then
    let st1 := registerSession st sid
    let ss := getSess st1 sid
    pqLoop env sid (mkUserMsg q) st1 ss (initialMessages ss q) maxRounds
  else (.error .notConnected, st)

/-! Concrete model stubs, tool requests and client states used to evaluate
the development on closed inputs. -/

/-- A request whose argument text is the empty JSON object. -/
def tcGen (cid nm : String) : ToolCall :=
  ⟨cid, nm, "\x7b\x7d", .success (.obj .nil)⟩

/-- A request whose argument text is not valid JSON. -/
def tcMalformed : ToolCall :=
  ⟨"c6", "t", "not json", .failure⟩

/-- A request whose argument text parses to a JSON array. -/
def tcNonObj : ToolCall :=
  ⟨"c9", "t", "[1]", .success (.arr (.cons (.num 1) .nil))⟩

/-- A model stub issuing the same request twice in one round, over a
backend whose reply text reveals its invocation count. -/
def envDup : Env :=
  ⟨fun _ => ⟨none, [tcGen "c1" "t", tcGen "c1" "t"]⟩,
   fun _ _ => .ok "s",
   fun n _ _ => .ok ⟨[some (toString n)], "r"⟩,
   fun _ => [0, 1]⟩

/-- A model stub issuing two requests in one round, over a backend that
fails tool "a" and answers tool "b". -/
def envFail : Env :=
  ⟨fun _ => ⟨some "", [tcGen "c1" "a", tcGen "c2" "b"]⟩,
   fun _ _ => .ok "s",
   fun _ nm _ => if nm = "a" then .error "boom" else .ok ⟨[some "okb"], "r"⟩,
   fun _ => [0, 1]⟩

/-- A model stub that requests a tool on every round. -/
def envLoop : Env :=
  ⟨fun _ => ⟨none, [tcGen "c1" "t"]⟩,
   fun _ _ => .ok "s",
   fun _ _ _ => .ok ⟨[some "x"], "r"⟩,
   fun _ => [0]⟩

/-- A model stub that answers directly with no tool requests. -/
def envFinal : Env :=
  ⟨fun _ => ⟨some "hello", []⟩,
   fun _ _ => .ok "s",
   fun _ _ _ => .ok ⟨[], "r"⟩,
   fun _ => []⟩

/-- A fresh client state with a bound MCP session. -/
def stConn : ClientState :=
  ⟨true, [], [], 0, 0, 0⟩

/-- A fresh client state with no MCP session. -/
def stNoConn : ClientState :=
  ⟨false, [], [], 0, 0, 0⟩

/-! Helper lemmas. -/

theorem sortPairs_perm (l : List (String × JValue)) : (sortPairs l).Perm l :=
  List.perm_insertionSort _ l

theorem sortPairs_sorted (l : List (String × JValue)) :
    (sortPairs l).Sorted (fun a b => a.1 ≤ b.1) :=
  List.sorted_insertionSort _ l

theorem sortPairs_strictSorted (l : List (String × JValue))
    (h : (l.map Prod.fst).Nodup) :
    (sortPairs l).Sorted (fun a b => a.1 < b.1) := by
  have hperm : (l.map Prod.fst).Perm ((sortPairs l).map Prod.fst) :=
    ((sortPairs_perm l).symm).map _
  have hnd : ((sortPairs l).map Prod.fst).Nodup := hperm.nodup h
  have hne : (sortPairs l).Pairwise (fun a b => a.1 ≠ b.1) := List.pairwise_map.mp hnd
  exact ((sortPairs_sorted l).and hne).imp (fun hab => lt_of_le_of_ne hab.1 hab.2)

theorem sortPairs_eq_of_perm (l1 l2 : List (String × JValue))
    (h1 : (l1.map Prod.fst).Nodup) (hp : l1.Perm l2) : sortPairs l1 = sortPairs l2 := by
  have h2 : (l2.map Prod.fst).Nodup := (hp.map Prod.fst).nodup h1
  exact List.eq_of_perm_of_sorted
    ((sortPairs_perm l1).trans (hp.trans (sortPairs_perm l2).symm))
    (sortPairs_strictSorted l1 h1) (sortPairs_strictSorted l2 h2)

theorem mem_mkOrder (σ : List Nat) (k i : Nat) : i ∈ mkOrder σ k ↔ i < k := by
  simp only [mkOrder, List.mem_append, List.mem_dedup, List.mem_filter, List.mem_range,
    decide_eq_true_eq]
  constructor
  · rintro (⟨_, h⟩ | ⟨h, _⟩) <;> exact h
  · intro h
    by_cases hm : i ∈ σ
    · exact Or.inl ⟨hm, h⟩
    · exact Or.inr ⟨h, hm⟩

theorem mkOrder_nodup (σ : List Nat) (k : Nat) : (mkOrder σ k).Nodup := by
  apply List.Nodup.append
  · exact List.nodup_dedup _
  · exact (List.nodup_range k).filter _
  · intro x h1 h2
    rw [List.mem_dedup, List.mem_filter] at h1
    rw [List.mem_filter] at h2
    have := h2.2
    simp only [decide_eq_true_eq] at this
    exact this h1.1

theorem eq_zero_singleton {l : List Nat} (hne : l ≠ []) (hnd : l.Nodup)
    (hall : ∀ x ∈ l, x = 0) : l = [0] := by
  cases l with
  | nil => exact absurd rfl hne
  | cons a tl =>
    have ha : a = 0 := hall a (List.mem_cons_self a tl)
    subst ha
    cases tl with
    | nil => rfl
    | cons b tl2 =>
      have hb : b = 0 := hall b (List.mem_cons_of_mem _ (List.mem_cons_self b tl2))
      subst hb
      exact absurd (List.mem_cons_self 0 tl2) (List.nodup_cons.mp hnd).1

theorem mkOrder_one (σ : List Nat) : mkOrder σ 1 = [0] := by
  apply eq_zero_singleton
  · exact List.ne_nil_of_mem ((mem_mkOrder σ 1 0).mpr Nat.one_pos)
  · exact mkOrder_nodup σ 1
  · intro x hx
    have := (mem_mkOrder σ 1 x).mp hx
    omega

theorem mkOrder_zero (σ : List Nat) : mkOrder σ 0 = [] := by
  cases h : mkOrder σ 0 with
  | nil => rfl
  | cons a tl =>
    have : a ∈ mkOrder σ 0 := h ▸ List.mem_cons_self a tl
    have := (mem_mkOrder σ 0 a).mp this
    omega

theorem Task.msg_toolCallId (t : Task) : (Task.msg t).toolCallId = some t.idOf := by
  cases t with
  | hit id t => rfl
  | miss id k res => cases res <;> rfl
  | argErr id => rfl

theorem phase1_length (env : Env) (cache : Cache) :
    ∀ (tcs : List ToolCall) (n : Nat), (phase1 env cache tcs n).1.length = tcs.length := by
  intro tcs
  induction tcs with
  | nil => intro n; rfl
  | cons tc rest ih =>
    intro n
    cases h : itemsOf (parseArgs tc.argsParse) with
    | error e => simp [phase1, h, ih]
    | ok fs =>
      cases hc : cacheLookup cache (cacheKeyOf tc.name fs) with
      | some t => simp [phase1, h, hc, ih]
      | none => simp [phase1, h, hc, ih]

theorem phase1_ids (env : Env) (cache : Cache) :
    ∀ (tcs : List ToolCall) (n : Nat),
      List.Forall₂ (fun (t : Task) (tc : ToolCall) => t.idOf = tc.id)
        (phase1 env cache tcs n).1 tcs := by
  intro tcs
  induction tcs with
  | nil => intro n; exact List.Forall₂.nil
  | cons tc rest ih =>
    intro n
    cases h : itemsOf (parseArgs tc.argsParse) with
    | error e =>
      simp only [phase1, h]
      exact List.Forall₂.cons rfl (ih n)
    | ok fs =>
      cases hc : cacheLookup cache (cacheKeyOf tc.name fs) with
      | some t =>
        simp only [phase1, h, hc]
        exact List.Forall₂.cons rfl (ih n)
      | none =>
        simp only [phase1, h, hc]
        exact List.Forall₂.cons rfl (ih (n + 1))

theorem wellShaped_items (tc : ToolCall) (h : tc.wellShaped = true) :
    ∃ fs, itemsOf (parseArgs tc.argsParse) = .ok fs := by
  cases hp : tc.argsParse with
  | failure => exact ⟨[], rfl⟩
  | success v =>
    rw [ToolCall.wellShaped, hp] at h
    cases v with
    | obj fs => exact ⟨fs.toList, rfl⟩
    | null => simp [JValue.isObj] at h
    | bool b => simp [JValue.isObj] at h
    | num n => simp [JValue.isObj] at h
    | str s => simp [JValue.isObj] at h
    | arr xs => simp [JValue.isObj] at h

theorem phase1_ok (env : Env) (cache : Cache) (hB : BackendTotal env) :
    ∀ (tcs : List ToolCall) (n : Nat), (∀ tc ∈ tcs, tc.wellShaped = true) →
      ∀ t ∈ (phase1 env cache tcs n).1, t.ok? = true := by
  intro tcs
  induction tcs with
  | nil => intro n _ t ht; simp [phase1] at ht
  | cons tc rest ih =>
    intro n hW t ht
    obtain ⟨fs, hfs⟩ := wellShaped_items tc (hW tc (List.mem_cons_self tc rest))
    have hWr : ∀ tc2 ∈ rest, tc2.wellShaped = true :=
      fun tc2 h2 => hW tc2 (List.mem_cons_of_mem _ h2)
    cases hc : cacheLookup cache (cacheKeyOf tc.name fs) with
    | some s =>
      simp only [phase1, hfs, hc, List.mem_cons] at ht
      rcases ht with h | h
      · rw [h]; rfl
      · exact ih n hWr t h
    | none =>
      simp only [phase1, hfs, hc, List.mem_cons] at ht
      rcases ht with h | h
      · obtain ⟨r, hr⟩ := hB n tc.name fs
        rw [h, hr]
        rfl
      · exact ih (n + 1) hWr t h

theorem phase1_argErr_mem (env : Env) (cache : Cache) :
    ∀ (tcs : List ToolCall) (n : Nat) (tc : ToolCall), tc ∈ tcs →
      itemsOf (parseArgs tc.argsParse) = .error .attributeError →
      (phase1 env cache tcs n).1.any Task.isArgErr = true := by
  intro tcs
  induction tcs with
  | nil => intro n tc h; simp at h
  | cons tc0 rest ih =>
    intro n tc hmem hit
    rcases List.mem_cons.mp hmem with h | h
    · subst h
      simp [phase1, hit, Task.isArgErr]
    · cases h0 : itemsOf (parseArgs tc0.argsParse) with
      | error e => simp [phase1, h0, Task.isArgErr]
      | ok fs =>
        cases hc : cacheLookup cache (cacheKeyOf tc0.name fs) with
        | some t =>
          simp only [phase1, h0, hc, List.any_cons, Bool.or_eq_true]
          exact Or.inr (ih n tc h hit)
        | none =>
          simp only [phase1, h0, hc, List.any_cons, Bool.or_eq_true]
          exact Or.inr (ih (n + 1) tc h hit)

theorem pend_ok_of_tasks_ok {tasks : List Task}
    (hok : ∀ t ∈ tasks, t.ok? = true) :
    ∀ p ∈ tasks.filterMap Task.pend, ∃ r, p.2 = Except.ok r := by
  intro p hp
  obtain ⟨t, ht, hpt⟩ := List.mem_filterMap.mp hp
  cases t with
  | hit id s => simp [Task.pend] at hpt
  | argErr id => simp [Task.pend] at hpt
  | miss id k res =>
    rw [Task.pend] at hpt
    cases res with
    | ok r =>
      have hp2 : p = (k, Except.ok r) := by
        injection hpt with h2
        exact h2.symm
      exact ⟨r, by rw [hp2]⟩
    | error e => have := hok _ ht; simp [Task.ok?] at this

theorem firstPendErr_none_of_ok {pend : List (CacheKey × Except String ToolResult)}
    (h : ∀ p ∈ pend, ∃ r, p.2 = Except.ok r) (ord : List Nat) :
    firstPendErr pend ord = none := by
  rw [firstPendErr, List.findSome?_eq_none_iff]
  intro i _
  cases hp : pend.get? i with
  | none => rfl
  | some p =>
    obtain ⟨r, hr⟩ := h p (List.get?_mem hp)
    obtain ⟨k, res⟩ := p
    simp only at hr
    rw [hr]

theorem runRound_ok (env : Env) (cache : Cache) (ctr : Nat) (tcs : List ToolCall)
    (σ : List Nat) (hW : ∀ tc ∈ tcs, tc.wellShaped = true) (hB : BackendTotal env) :
    (runRound env cache ctr tcs σ).result
      = .ok ((phase1 env cache tcs ctr).1.map Task.msg) := by
  have hok := phase1_ok env cache hB tcs ctr hW
  have hany : (phase1 env cache tcs ctr).1.any Task.isArgErr = false := by
    rw [List.any_eq_false]
    intro t ht
    have h2 := hok t ht
    cases t with
    | hit id s => simp [Task.isArgErr]
    | miss id k res => simp [Task.isArgErr]
    | argErr id => simp [Task.ok?] at h2
  have hpend := firstPendErr_none_of_ok (pend_ok_of_tasks_ok hok)
  simp only [runRound, hany, Bool.false_eq_true, if_false, hpend]

theorem firstPendErr_mkOrder_none {pend : List (CacheKey × Except String ToolResult)}
    {σ : List Nat} (σ2 : List Nat)
    (h : firstPendErr pend (mkOrder σ pend.length) = none) :
    firstPendErr pend (mkOrder σ2 pend.length) = none := by
  rw [firstPendErr, List.findSome?_eq_none_iff] at h ⊢
  intro i hi
  exact h i ((mem_mkOrder σ pend.length i).mpr ((mem_mkOrder σ2 pend.length i).mp hi))

theorem runRound_singleton_miss (env : Env) (cache : Cache) (ctr : Nat) (tc : ToolCall)
    (σ : List Nat) (fs : List (String × JValue))
    (h1 : itemsOf (parseArgs tc.argsParse) = .ok fs)
    (hm : cacheLookup cache (cacheKeyOf tc.name fs) = none) :
    runRound env cache ctr [tc] σ =
      ⟨match env.backend ctr tc.name fs with
        | .ok r => .ok [toolMsg tc.id (toolText r)]
        | .error e => .error (.toolCallError e),
       match env.backend ctr tc.name fs with
        | .ok r => cacheInsert cache (cacheKeyOf tc.name fs) (toolText r)
        | .error _ => cache,
       ctr + 1⟩ := by
  cases hb : env.backend ctr tc.name fs with
  | ok r =>
    simp [runRound, phase1, h1, hm, hb, Task.pend, Task.msg, Task.isArgErr, mkOrder_one,
      applyWrites, firstPendErr]
  | error e =>
    simp [runRound, phase1, h1, hm, hb, Task.pend, Task.msg, Task.isArgErr, mkOrder_one,
      applyWrites, firstPendErr]

theorem runRound_singleton_hit (env : Env) (cache : Cache) (ctr : Nat) (tc : ToolCall)
    (σ : List Nat) (fs : List (String × JValue)) (t : String)
    (h1 : itemsOf (parseArgs tc.argsParse) = .ok fs)
    (hm : cacheLookup cache (cacheKeyOf tc.name fs) = some t) :
    runRound env cache ctr [tc] σ = ⟨.ok [toolMsg tc.id t], cache, ctr⟩ := by
  simp [runRound, phase1, h1, hm, Task.pend, Task.msg, Task.isArgErr, mkOrder_zero,
    applyWrites, firstPendErr]

/-! Claims about the cache key and the compactor. -/

/-- C8: two requests with the same tool name whose argument texts parse to
mappings equal as sets of (name, value) pairs get the same cache key, so
the second is a cache hit of the first. -/
theorem cacheKey_canonical (nm : String) (a1 a2 : List (String × JValue))
    (h1 : (a1.map Prod.fst).Nodup) (h2 : (a2.map Prod.fst).Nodup)
    (hext : ∀ p, p ∈ a1 ↔ p ∈ a2) :
    cacheKeyOf nm a1 = cacheKeyOf nm a2 ∧
    ∀ (c : Cache) (t : String),
      cacheLookup (cacheInsert c (cacheKeyOf nm a1) t) (cacheKeyOf nm a2) = some t := by
  have hperm : a1.Perm a2 :=
    (List.perm_ext_iff_of_nodup (List.Nodup.of_map _ h1) (List.Nodup.of_map _ h2)).mpr hext
  have hkey : cacheKeyOf nm a1 = cacheKeyOf nm a2 := by
    unfold cacheKeyOf
    rw [sortPairs_eq_of_perm a1 a2 h1 hperm]
  refine ⟨hkey, fun c t => ?_⟩
  rw [hkey]
  simp [cacheInsert, cacheLookup]

/-- C8 witness: the key is insensitive to the textual order of the
argument pairs, and the reordered request hits the cached entry. -/
theorem cacheKey_canonical_witness :
    cacheKeyOf "t" [("a", JValue.num 1), ("b", JValue.num 2)]
      = cacheKeyOf "t" [("b", JValue.num 2), ("a", JValue.num 1)] ∧
    ∀ (c : Cache) (t : String),
      cacheLookup (cacheInsert c (cacheKeyOf "t" [("a", JValue.num 1), ("b", JValue.num 2)]) t)
        (cacheKeyOf "t" [("b", JValue.num 2), ("a", JValue.num 1)]) = some t :=
  cacheKey_canonical "t" [("a", JValue.num 1), ("b", JValue.num 2)]
    [("b", JValue.num 2), ("a", JValue.num 1)]
    (by decide) (by decide)
    (fun p => by simp only [List.mem_cons, List.not_mem_nil, or_false]; exact or_comm)

/-- C5: on a state whose serialized history is at least `max_chars` long
(`max_chars` defaults to 8000) the compactor replaces the summary with the
model text and truncates the history to its last 6 entries; strictly below
the threshold it changes nothing and makes no model call. -/
theorem summarizeIfNeeded_spec (env : Env) (n : Nat) (state : SessionState) (maxChars : Nat) :
    ((serializeHistory state.history).length < maxChars →
      summarizeIfNeeded env n state maxChars = (.ok state, n)) ∧
    (maxChars ≤ (serializeHistory state.history).length →
      ∀ s, env.summarize n (serializeHistory state.history) = .ok s →
        summarizeIfNeeded env n state maxChars =
          (.ok ⟨state.history.drop (state.history.length - 6), s⟩, n + 1) ∧
        (state.history.drop (state.history.length - 6)).length ≤ 6) := by
  constructor
  · intro h
    simp [summarizeIfNeeded, h]
  · intro h s hs
    have h2 : ¬ (serializeHistory state.history).length < maxChars := by omega
    constructor
    · simp [summarizeIfNeeded, h2, hs]
    · rw [List.length_drop]
      omega

/-- C5 witness: a two-message history over the 8000 threshold is compacted
to the model text, and an empty history below it is untouched. -/
theorem summarizeIfNeeded_spec_witness :
    summarizeIfNeeded envFinal 0 ⟨[], ""⟩ 8000 = (.ok ⟨[], ""⟩, 0) ∧
    summarizeIfNeeded envFinal 0 ⟨[], ""⟩ 1 = (.ok ⟨[], "s"⟩, 1) := by
  constructor
  · exact (summarizeIfNeeded_spec envFinal 0 ⟨[], ""⟩ 8000).1 (by decide)
  · exact ((summarizeIfNeeded_spec envFinal 0 ⟨[], ""⟩ 1).2 (by decide) "s" rfl).1

/-- C2: when a round returns tool messages, they are as many as the
requests, the i-th message carries the call identifier of the i-th request,
and the same message list is produced under every completion schedule. -/
theorem round_order_preserved (env : Env) (cache : Cache) (ctr : Nat) (tcs : List ToolCall)
    (σ : List Nat) (msgs : List Message)
    (h : (runRound env cache ctr tcs σ).result = .ok msgs) :
    msgs.length = tcs.length ∧
    (∀ (i : Nat) (h1 : i < msgs.length) (h2 : i < tcs.length),
      (msgs.get ⟨i, h1⟩).toolCallId = some ((tcs.get ⟨i, h2⟩).id)) ∧
    (∀ σ2, (runRound env cache ctr tcs σ2).result = .ok msgs) := by
  cases hq : (phase1 env cache tcs ctr).1.any Task.isArgErr with
  | true => simp [runRound, hq] at h
  | false =>
    cases hp : firstPendErr ((phase1 env cache tcs ctr).1.filterMap Task.pend)
        (mkOrder σ ((phase1 env cache tcs ctr).1.filterMap Task.pend).length) with
    | some e => simp [runRound, hq, hp] at h
    | none =>
      have hmsgs : msgs = (phase1 env cache tcs ctr).1.map Task.msg := by
        simp [runRound, hq, hp] at h
        exact h.symm
      subst hmsgs
      refine ⟨?_, ?_, ?_⟩
      · rw [List.length_map, phase1_length]
      · intro i h1 h2
        have hf := phase1_ids env cache tcs ctr
        rw [List.forall₂_iff_get] at hf
        obtain ⟨hlen, hget⟩ := hf
        have hi : i < (phase1 env cache tcs ctr).1.length := by
          rw [List.length_map] at h1
          exact h1
        simp only [List.get_eq_getElem, List.getElem_map]
        rw [Task.msg_toolCallId]
        exact congrArg some (hget i hi h2)
      · intro σ2
        simp [runRound, hq, firstPendErr_mkOrder_none σ2 hp]

/-- C2 witness: a two-request round over a uniform backend returns the two
tool messages in request order under both schedules. -/
theorem round_order_preserved_witness :
    (∀ σ2, (runRound envLoop [] 0 [tcGen "c1" "t", tcGen "c2" "u"] σ2).result
      = .ok [toolMsg "c1" "x", toolMsg "c2" "x"]) ∧
    (toolMsg "c1" "x").toolCallId = some ((tcGen "c1" "t").id) := by
  have h := round_order_preserved envLoop [] 0 [tcGen "c1" "t", tcGen "c2" "u"] [0, 1]
    [toolMsg "c1" "x", toolMsg "c2" "x"] (by decide)
  exact ⟨h.2.2, h.2.1 0 (by decide) (by decide)⟩

/-- C9: a request whose argument text parses to valid JSON that is not an
object makes the dispatcher raise `AttributeError` while computing the
cache key, aborting the whole round. -/
theorem nonObjectArgs_abort (env : Env) (cache : Cache) (ctr : Nat) (tcs : List ToolCall)
    (σ : List Nat) (tc : ToolCall) (v : JValue) (hmem : tc ∈ tcs)
    (hp : tc.argsParse = .success v) (hv : v.isObj = false) :
    (runRound env cache ctr tcs σ).result = .error .attributeError := by
  have hitems : itemsOf (parseArgs tc.argsParse) = .error .attributeError := by
    rw [hp]
    cases v with
    | obj fs => simp [JValue.isObj] at hv
    | null => rfl
    | bool b => rfl
    | num n => rfl
    | str s => rfl
    | arr xs => rfl
  have hany := phase1_argErr_mem env cache tcs ctr tc hmem hitems
  simp [runRound, hany]

/-- C9 witness: a request whose arguments parse to the array `[1]` aborts
its round with `AttributeError`, even though its sibling is well-formed. -/
theorem nonObjectArgs_abort_witness :
    (runRound envLoop [] 0 [tcGen "c1" "t", tcNonObj] [0, 1]).result
      = .error .attributeError :=
  nonObjectArgs_abort envLoop [] 0 [tcGen "c1" "t", tcNonObj] [0, 1] tcNonObj
    (.arr (.cons (.num 1) .nil)) (by decide) rfl rfl

/-- C6: a request whose argument text fails to parse does not abort the
round; the remote tool is invoked with the empty argument payload, and the
round completes with that result. -/
theorem malformedArgs_empty_payload (env : Env) (cache : Cache) (ctr : Nat) (tc : ToolCall)
    (σ : List Nat) (r : ToolResult)
    (hp : tc.argsParse = .failure)
    (hm : cacheLookup cache (cacheKeyOf tc.name []) = none)
    (hb : env.backend ctr tc.name [] = .ok r) :
    runRound env cache ctr [tc] σ =
      ⟨.ok [toolMsg tc.id (toolText r)],
       cacheInsert cache (cacheKeyOf tc.name []) (toolText r), ctr + 1⟩ := by
  have h1 : itemsOf (parseArgs tc.argsParse) = .ok [] := by rw [hp]; rfl
  rw [runRound_singleton_miss env cache ctr tc σ [] h1 hm, hb]

/-- C6 witness: the unparsable request is dispatched with empty arguments
and completes. -/
theorem malformedArgs_empty_payload_witness :
    runRound envLoop [] 0 [tcMalformed] [0] =
      ⟨.ok [toolMsg "c6" "x"], cacheInsert [] (cacheKeyOf "t" []) "x", 1⟩ :=
  malformedArgs_empty_payload envLoop [] 0 tcMalformed [0] ⟨[some "x"], "r"⟩ rfl rfl rfl

/-- C3 counterexample: two identical requests issued concurrently in the
same round each invoke the backend (two invocations for one key), and the
two result texts differ when the backend is not deterministic — refuting
the claim that the backend is invoked at most once per key within a
process lifetime. -/
theorem duplicate_round_cex :
    (runRound envDup [] 0 [tcGen "c1" "t", tcGen "c1" "t"] [0, 1]).calls = 2 ∧
    (runRound envDup [] 0 [tcGen "c1" "t", tcGen "c1" "t"] [0, 1]).result
      = .ok [toolMsg "c1" "0", toolMsg "c1" "1"] := by
  decide

/-- C3 amended: once an invocation of a key has completed and populated the
cache, any later invocation with the same name and a set-equal argument
mapping is a cache hit: no further backend call, the identical text, and a
result message of exactly the shape of a fresh one.  (Within one round,
concurrent duplicates of an uncached key each invoke the backend.) -/
theorem cache_hit_across_rounds (env : Env) (cache : Cache) (ctr : Nat)
    (tc tc2 : ToolCall) (σ1 σ2 : List Nat) (fs1 fs2 : List (String × JValue)) (r : ToolResult)
    (h1 : itemsOf (parseArgs tc.argsParse) = .ok fs1)
    (h2 : itemsOf (parseArgs tc2.argsParse) = .ok fs2)
    (hname : tc2.name = tc.name)
    (hnd1 : (fs1.map Prod.fst).Nodup) (hnd2 : (fs2.map Prod.fst).Nodup)
    (hext : ∀ p, p ∈ fs1 ↔ p ∈ fs2)
    (hm : cacheLookup cache (cacheKeyOf tc.name fs1) = none)
    (hb : env.backend ctr tc.name fs1 = .ok r) :
    runRound env cache ctr [tc] σ1 =
      ⟨.ok [toolMsg tc.id (toolText r)],
       cacheInsert cache (cacheKeyOf tc.name fs1) (toolText r), ctr + 1⟩ ∧
    runRound env (cacheInsert cache (cacheKeyOf tc.name fs1) (toolText r)) (ctr + 1)
        [tc2] σ2 =
      ⟨.ok [toolMsg tc2.id (toolText r)],
       cacheInsert cache (cacheKeyOf tc.name fs1) (toolText r), ctr + 1⟩ := by
  have hkey : cacheKeyOf tc2.name fs2 = cacheKeyOf tc.name fs1 := by
    rw [hname]
    unfold cacheKeyOf
    rw [sortPairs_eq_of_perm fs2 fs1 hnd2
      ((List.perm_ext_iff_of_nodup (List.Nodup.of_map _ hnd2) (List.Nodup.of_map _ hnd1)).mpr
        (fun p => (hext p).symm))]
  constructor
  · rw [runRound_singleton_miss env cache ctr tc σ1 fs1 h1 hm, hb]
  · have hhit : cacheLookup (cacheInsert cache (cacheKeyOf tc.name fs1) (toolText r))
        (cacheKeyOf tc2.name fs2) = some (toolText r) := by
      rw [hkey]
      simp [cacheInsert, cacheLookup]
    exact runRound_singleton_hit env _ (ctr + 1) tc2 σ2 fs2 (toolText r) h2 hhit

/-- C3 amended witness: the identical request of the second round is served
from the cache with the text of the first round and no new backend call. -/
theorem cache_hit_across_rounds_witness :
    runRound envLoop [] 0 [tcGen "c1" "t"] [0] =
      ⟨.ok [toolMsg "c1" "x"], cacheInsert [] (cacheKeyOf "t" []) "x", 1⟩ ∧
    runRound envLoop (cacheInsert [] (cacheKeyOf "t" []) "x") 1 [tcGen "c2" "t"] [0] =
      ⟨.ok [toolMsg "c2" "x"], cacheInsert [] (cacheKeyOf "t" []) "x", 1⟩ := by
  have h := cache_hit_across_rounds envLoop [] 0 (tcGen "c1" "t") (tcGen "c2" "t") [0] [0]
    [] [] ⟨[some "x"], "r"⟩ rfl rfl rfl (by decide) (by decide)
    (fun p => Iff.rfl) rfl rfl
  exact h

/-- A nodup list of naturals whose members are exactly 0 and 1 is one of
the two orderings of the pair. -/
theorem nodup_mem01 {l : List Nat} (hnd : l.Nodup) (hmem : ∀ x, x ∈ l ↔ x = 0 ∨ x = 1) :
    l = [0, 1] ∨ l = [1, 0] := by
  cases l with
  | nil =>
    have := (hmem 0).mpr (Or.inl rfl)
    simp at this
  | cons a tl =>
    cases tl with
    | nil =>
      have h0 := (hmem 0).mpr (Or.inl rfl)
      have h1 := (hmem 1).mpr (Or.inr rfl)
      simp at h0 h1
      omega
    | cons b tl2 =>
      have hab : a ≠ b := by
        intro he
        rw [he] at hnd
        exact (List.nodup_cons.mp hnd).1 (List.mem_cons_self b tl2)
      have ha := (hmem a).mp (List.mem_cons_self a _)
      have hb := (hmem b).mp (List.mem_cons_of_mem _ (List.mem_cons_self b tl2))
      have htl2 : tl2 = [] := by
        cases tl2 with
        | nil => rfl
        | cons c tl3 =>
          have hc := (hmem c).mp
            (List.mem_cons_of_mem _ (List.mem_cons_of_mem _ (List.mem_cons_self c tl3)))
          have hna : a ∉ b :: c :: tl3 := (List.nodup_cons.mp hnd).1
          have hnb : b ∉ c :: tl3 := (List.nodup_cons.mp (List.nodup_cons.mp hnd).2).1
          have hca : c ≠ a := fun he =>
            hna (he ▸ List.mem_cons_of_mem _ (List.mem_cons_self c tl3))
          have hcb : c ≠ b := fun he => hnb (he ▸ List.mem_cons_self c tl3)
          omega
      subst htl2
      rcases ha with ha | ha <;> rcases hb with hb | hb <;> subst ha <;> subst hb
      · exact absurd rfl hab
      · exact Or.inl rfl
      · exact Or.inr rfl
      · exact absurd rfl hab

/-- C4 counterexample: with an active session, a round in which tool "a"
raises while sibling "b" succeeds makes `process_query` itself raise — no
error-text result is fed back and the round does not continue — while the
failed key is indeed never cached while the sibling result is. -/
theorem tool_failure_cex :
    (process_query envFail stConn "default" "q" 6).1 = .error (.toolCallError "boom") ∧
    cacheLookup (process_query envFail stConn "default" "q" 6).2.toolCache
      (cacheKeyOf "a" []) = none ∧
    cacheLookup (process_query envFail stConn "default" "q" 6).2.toolCache
      (cacheKeyOf "b" []) = some "okb" := by
  decide

/-- C4 amended: when the remote call of one request raises, the exception
propagates out of the round (aborting the turn, with no error-text result
message); the sibling call still runs to completion and its text is
cached, and the key of the failed invocation is never written to the cache. -/
theorem tool_failure_propagates (env : Env) (cache : Cache) (ctr : Nat) (σ : List Nat)
    (tc1 tc2 : ToolCall) (fs1 fs2 : List (String × JValue)) (e : String) (r : ToolResult)
    (h1 : itemsOf (parseArgs tc1.argsParse) = .ok fs1)
    (h2 : itemsOf (parseArgs tc2.argsParse) = .ok fs2)
    (hk : cacheKeyOf tc1.name fs1 ≠ cacheKeyOf tc2.name fs2)
    (hm1 : cacheLookup cache (cacheKeyOf tc1.name fs1) = none)
    (hm2 : cacheLookup cache (cacheKeyOf tc2.name fs2) = none)
    (hb1 : env.backend ctr tc1.name fs1 = .error e)
    (hb2 : env.backend (ctr + 1) tc2.name fs2 = .ok r) :
    (runRound env cache ctr [tc1, tc2] σ).result = .error (.toolCallError e) ∧
    (runRound env cache ctr [tc1, tc2] σ).cache
      = cacheInsert cache (cacheKeyOf tc2.name fs2) (toolText r) ∧
    cacheLookup (runRound env cache ctr [tc1, tc2] σ).cache (cacheKeyOf tc1.name fs1)
      = none ∧
    (runRound env cache ctr [tc1, tc2] σ).calls = ctr + 2 := by
  have hph : phase1 env cache [tc1, tc2] ctr =
      ([.miss tc1.id (cacheKeyOf tc1.name fs1) (.error e),
        .miss tc2.id (cacheKeyOf tc2.name fs2) (.ok r)], ctr + 2) := by
    simp [phase1, h1, h2, hm1, hm2, hb1, hb2]
  have hmem : ∀ x, x ∈ mkOrder σ 2 ↔ x = 0 ∨ x = 1 := by
    intro x
    rw [mem_mkOrder]
    omega
  have hlk : cacheLookup (cacheInsert cache (cacheKeyOf tc2.name fs2) (toolText r))
      (cacheKeyOf tc1.name fs1) = none := by
    rw [cacheInsert, cacheLookup]
    rw [if_neg (Ne.symm hk)]
    exact hm1
  rcases nodup_mem01 (mkOrder_nodup σ 2) hmem with hord | hord <;>
    refine ⟨?_, ?_, ?_, ?_⟩ <;>
    simp [runRound, hph, Task.pend, Task.isArgErr, hord, applyWrites, firstPendErr,
      cacheInsert, hlk]
  · rw [cacheLookup, if_neg (Ne.symm hk)]
    exact hm1
  · rw [cacheLookup, if_neg (Ne.symm hk)]
    exact hm1

theorem registerSession_lookup (st : ClientState) (sid : String) :
    getSess (registerSession st sid) sid = getSess st sid := by
  unfold registerSession
  split
  · rfl
  · rename_i h
    cases hl : sessLookup st.sessions sid with
    | some v => rw [hl] at h; simp at h
    | none => simp [getSess, sessLookup, hl]

theorem summarizeIfNeeded_ok_total (env : Env) (hSum : SummarizeTotal env) (n : Nat)
    (ss : SessionState) (mc : Nat) :
    ∃ ss2 n2, summarizeIfNeeded env n ss mc = (.ok ss2, n2) := by
  simp only [summarizeIfNeeded]
  split
  · exact ⟨ss, n, rfl⟩
  · obtain ⟨t, ht⟩ := hSum n (serializeHistory ss.history)
    rw [ht]
    exact ⟨_, _, rfl⟩

theorem summarizeIfNeeded_suffix (env : Env) (n : Nat) (ss : SessionState) (mc : Nat)
    (ss2 : SessionState) (n2 : Nat)
    (h : summarizeIfNeeded env n ss mc = (.ok ss2, n2)) : ss2.history <:+ ss.history := by
  simp only [summarizeIfNeeded] at h
  split at h
  · injection h with h1 h2
    injection h1 with h1
    rw [← h1]
  · split at h
    · simp at h
    · injection h with h1 h2
      injection h1 with h1
      rw [← h1]
      exact List.drop_suffix _ _

theorem summarize_keeps_tail (env : Env) (n : Nat) (ss : SessionState) (mc : Nat)
    (ss2 : SessionState) (n2 : Nat) (a b : Message) (h0 : List Message)
    (hh : ss.history = h0 ++ [a, b])
    (h : summarizeIfNeeded env n ss mc = (.ok ss2, n2)) : [a, b] <:+ ss2.history := by
  simp only [summarizeIfNeeded] at h
  split at h
  · injection h with h1 h2
    injection h1 with h1
    rw [← h1, hh]
    exact List.suffix_append h0 [a, b]
  · split at h
    · simp at h
    · injection h with h1 h2
      injection h1 with h1
      rw [← h1]
      simp only [hh]
      rw [List.drop_append_eq_append_drop]
      have hz : (h0 ++ [a, b]).length - 6 - h0.length = 0 := by
        simp [List.length_append]
      rw [hz, List.drop_zero]
      exact List.suffix_append _ _

theorem finishTurn_ok (env : Env) (st : ClientState) (sid : String) (ss : SessionState)
    (u fm : Message) (text : String) (hSum : SummarizeTotal env) :
    ∃ ss2 n2,
      summarizeIfNeeded env st.sumCalls ⟨ss.history ++ [u, fm], ss.summary⟩ 8000
        = (.ok ss2, n2) ∧
      finishTurn env st sid ss u fm text = (.ok text, commit st sid ss2 n2) := by
  obtain ⟨ss2, n2, h⟩ :=
    summarizeIfNeeded_ok_total env hSum st.sumCalls ⟨ss.history ++ [u, fm], ss.summary⟩ 8000
  refine ⟨ss2, n2, h, ?_⟩
  simp only [finishTurn, h]

theorem finishTurn_cases (env : Env) (st : ClientState) (sid : String) (ss : SessionState)
    (u fm : Message) (text t : String) (st2 : ClientState)
    (h : finishTurn env st sid ss u fm text = (.ok t, st2)) :
    t = text ∧ ∃ ss2 n2,
      summarizeIfNeeded env st.sumCalls ⟨ss.history ++ [u, fm], ss.summary⟩ 8000
        = (.ok ss2, n2) ∧
      st2 = commit st sid ss2 n2 := by
  simp only [finishTurn] at h
  rcases hs : summarizeIfNeeded env st.sumCalls ⟨ss.history ++ [u, fm], ss.summary⟩ 8000
    with ⟨res, n2⟩
  rw [hs] at h
  cases res with
  | ok ss2 =>
    simp only [Prod.mk.injEq, Except.ok.injEq] at h
    exact ⟨h.1.symm, ss2, n2, rfl, h.2.symm⟩
  | error e => simp at h

theorem pqLoop_exhaust (env : Env) (sid : String) (u : Message) (hB : BackendTotal env) :
    ∀ (fuel : Nat) (st : ClientState) (ss : SessionState),
      (∀ i < fuel, (env.modelStep (st.roundCalls + i)).toolCalls ≠ []) →
      (∀ i < fuel, ∀ tc ∈ (env.modelStep (st.roundCalls + i)).toolCalls, tc.wellShaped = true) →
      ∃ (c : Cache) (b : Nat), ∀ msgs : List Message,
        pqLoop env sid u st ss msgs fuel =
          finishTurn env
            { st with roundCalls := st.roundCalls + fuel, toolCache := c, backendCalls := b }
            sid ss u fallbackMsg fallbackText := by
  intro fuel
  induction fuel with
  | zero =>
    intro st ss _ _
    exact ⟨st.toolCache, st.backendCalls, fun msgs => rfl⟩
  | succ n ih =>
    intro st ss hM hW
    have hne := hM 0 (Nat.succ_pos n)
    rw [Nat.add_zero] at hne
    have hWs := hW 0 (Nat.succ_pos n)
    rw [Nat.add_zero] at hWs
    have hne2 : (env.modelStep st.roundCalls).toolCalls.isEmpty = false := by
      cases hemp : (env.modelStep st.roundCalls).toolCalls.isEmpty with
      | false => rfl
      | true => exact absurd (List.isEmpty_iff.mp hemp) hne
    have hok := runRound_ok env st.toolCache st.backendCalls
      (env.modelStep st.roundCalls).toolCalls (env.sched st.roundCalls) hWs hB
    have hM2 : ∀ i < n, (env.modelStep (st.roundCalls + 1 + i)).toolCalls ≠ [] := by
      intro i hi
      have := hM (i + 1) (by omega)
      rwa [show st.roundCalls + (i + 1) = st.roundCalls + 1 + i from by omega] at this
    have hW2 : ∀ i < n,
        ∀ tc ∈ (env.modelStep (st.roundCalls + 1 + i)).toolCalls, tc.wellShaped = true := by
      intro i hi
      have := hW (i + 1) (by omega)
      rwa [show st.roundCalls + (i + 1) = st.roundCalls + 1 + i from by omega] at this
    obtain ⟨c, b, hrec⟩ := ih
      { st with
        roundCalls := st.roundCalls + 1
        toolCache := (runRound env st.toolCache st.backendCalls
          (env.modelStep st.roundCalls).toolCalls (env.sched st.roundCalls)).cache
        backendCalls := (runRound env st.toolCache st.backendCalls
          (env.modelStep st.roundCalls).toolCalls (env.sched st.roundCalls)).calls }
      ss hM2 hW2
    refine ⟨c, b, fun msgs => ?_⟩
    rw [show st.roundCalls + (n + 1) = st.roundCalls + 1 + n from by omega]
    rw [← hrec (msgs ++ [assistantDict (env.modelStep st.roundCalls)]
      ++ ((phase1 env st.toolCache (env.modelStep st.roundCalls).toolCalls
            st.backendCalls).1.map Task.msg))]
    simp only [pqLoop, hne2, Bool.false_eq_true, if_false, hok, List.append_assoc]

/-- C1: with a model that answers every one of the first `max_rounds`
rounds with tool requests, `process_query` terminates after exactly
`max_rounds` round-loop model calls, returns the fixed fallback text,
extends the session history with the user message and a fallback-carrying
assistant message, and runs the compactor on that extended state before
returning. -/
theorem round_budget_fallback (env : Env) (st : ClientState) (sid q : String) (R : Nat)
    (hS : st.hasSession = true)
    (hM : ∀ i < R, (env.modelStep (st.roundCalls + i)).toolCalls ≠ [])
    (hW : ∀ i < R, ∀ tc ∈ (env.modelStep (st.roundCalls + i)).toolCalls, tc.wellShaped = true)
    (hB : BackendTotal env) (hSum : SummarizeTotal env) :
    ∃ (st2 : ClientState) (ss2 : SessionState) (n2 : Nat),
      process_query env st sid q R = (.ok fallbackText, st2) ∧
      st2.roundCalls = st.roundCalls + R ∧
      summarizeIfNeeded env st.sumCalls
          ⟨(getSess st sid).history ++ [mkUserMsg q, fallbackMsg], (getSess st sid).summary⟩
          8000
        = (.ok ss2, n2) ∧
      sessLookup st2.sessions sid = some ss2 ∧
      [mkUserMsg q, fallbackMsg] <:+ ss2.history := by
  have hrc : (registerSession st sid).roundCalls = st.roundCalls := by
    unfold registerSession
    split <;> rfl
  obtain ⟨c, b, hloop⟩ := pqLoop_exhaust env sid (mkUserMsg q) hB R (registerSession st sid)
    (getSess (registerSession st sid) sid)
    (by rw [hrc]; exact hM) (by rw [hrc]; exact hW)
  obtain ⟨ss2, n2, hsum, heq⟩ := finishTurn_ok env
    { registerSession st sid with
      roundCalls := (registerSession st sid).roundCalls + R
      toolCache := c
      backendCalls := b } sid (getSess (registerSession st sid) sid) (mkUserMsg q)
    fallbackMsg fallbackText hSum
  have hsum2 : summarizeIfNeeded env st.sumCalls
      ⟨(getSess st sid).history ++ [mkUserMsg q, fallbackMsg], (getSess st sid).summary⟩ 8000
      = (.ok ss2, n2) := by
    have hsc : (registerSession st sid).sumCalls = st.sumCalls := by
      unfold registerSession
      split <;> rfl
    rw [← hsc, ← registerSession_lookup st sid]
    exact hsum
  refine ⟨commit
    { registerSession st sid with
      roundCalls := (registerSession st sid).roundCalls + R
      toolCache := c
      backendCalls := b } sid ss2 n2, ss2, n2, ?_, ?_, hsum2, ?_, ?_⟩
  · simp only [process_query, hS, if_true]
    rw [hloop _]
    exact heq
  · show ((registerSession st sid).roundCalls + R : Nat) = st.roundCalls + R
    rw [hrc]
  · simp [commit, sessLookup]
  · exact summarize_keeps_tail env st.sumCalls
      ⟨(getSess st sid).history ++ [mkUserMsg q, fallbackMsg], (getSess st sid).summary⟩ 8000
      ss2 n2 (mkUserMsg q) fallbackMsg (getSess st sid).history rfl hsum2

/-- C1 witness: with a two-round budget and a model stub that always
requests tools, the call returns the fallback after exactly two model
calls and the fallback turn is persisted. -/
theorem round_budget_fallback_witness :
    ∃ (st2 : ClientState) (ss2 : SessionState) (n2 : Nat),
      process_query envLoop stConn "d" "q" 2 = (.ok fallbackText, st2) ∧
      st2.roundCalls = stConn.roundCalls + 2 ∧
      summarizeIfNeeded envLoop stConn.sumCalls
          ⟨(getSess stConn "d").history ++ [mkUserMsg "q", fallbackMsg],
           (getSess stConn "d").summary⟩ 8000
        = (.ok ss2, n2) ∧
      sessLookup st2.sessions "d" = some ss2 ∧
      [mkUserMsg "q", fallbackMsg] <:+ ss2.history :=
  round_budget_fallback envLoop stConn "d" "q" 2 rfl
    (by decide) (by decide)
    (fun n nm args => ⟨⟨[some "x"], "r"⟩, rfl⟩)
    (fun n s => ⟨"s", rfl⟩)

theorem pqLoop_isOk (env : Env) (sid : String) (u : Message)
    (hB : BackendTotal env) (hW : AllWellShaped env) (hSum : SummarizeTotal env) :
    ∀ (fuel : Nat) (st : ClientState) (ss : SessionState) (msgs : List Message),
      ∃ t st2, pqLoop env sid u st ss msgs fuel = (.ok t, st2) := by
  intro fuel
  induction fuel with
  | zero =>
    intro st ss msgs
    obtain ⟨ss2, n2, _, heq⟩ := finishTurn_ok env st sid ss u fallbackMsg fallbackText hSum
    exact ⟨fallbackText, commit st sid ss2 n2, heq⟩
  | succ n ih =>
    intro st ss msgs
    cases hemp : (env.modelStep st.roundCalls).toolCalls.isEmpty with
    | true =>
      obtain ⟨ss2, n2, _, heq⟩ := finishTurn_ok env { st with roundCalls := st.roundCalls + 1 }
        sid ss u (assistantDict (env.modelStep st.roundCalls))
        ((env.modelStep st.roundCalls).content.getD "") hSum
      refine ⟨(env.modelStep st.roundCalls).content.getD "",
        commit { st with roundCalls := st.roundCalls + 1 } sid ss2 n2, ?_⟩
      simp only [pqLoop, hemp, if_true]
      exact heq
    | false =>
      have hok := runRound_ok env st.toolCache st.backendCalls
        (env.modelStep st.roundCalls).toolCalls (env.sched st.roundCalls)
        (hW st.roundCalls) hB
      simp only [pqLoop, hemp, Bool.false_eq_true, if_false, hok]
      exact ih _ _ _

/-- C7 amended: calling `process_query` before a tool session exists
raises immediately; with an active session the caller receives text
provided no tool execution fails, no request carries a well-formed
non-object argument payload, and the summarization call succeeds (each of
those raises instead). -/
theorem process_query_total (env : Env) (st : ClientState) (sid q : String) (R : Nat)
    (hB : BackendTotal env) (hW : AllWellShaped env) (hSum : SummarizeTotal env) :
    (st.hasSession = false → process_query env st sid q R = (.error .notConnected, st)) ∧
    (st.hasSession = true → ∃ t st2, process_query env st sid q R = (.ok t, st2)) := by
  constructor
  · intro h
    simp [process_query, h]
  · intro h
    obtain ⟨t, st2, hl⟩ := pqLoop_isOk env sid (mkUserMsg q) hB hW hSum R
      (registerSession st sid) (getSess (registerSession st sid) sid)
      (initialMessages (getSess (registerSession st sid) sid) q)
    refine ⟨t, st2, ?_⟩
    simp only [process_query, h, if_true]
    exact hl

/-- C7 counterexample: with an active session, a round whose remote tool
call raises makes `process_query` deliver an exception rather than text —
refuting the claim that the caller always receives a text result. -/
theorem unhandled_failure_cex :
    stConn.hasSession = true ∧
    (process_query envFail stConn "s7" "q" 1).1 = .error (.toolCallError "boom") := by
  decide

/-- C7 amended witness: the not-connected call raises immediately, and a
benign environment always yields text. -/
theorem process_query_total_witness :
    process_query envLoop stNoConn "d" "q" 2 = (.error .notConnected, stNoConn) ∧
    ∃ t st2, process_query envLoop stConn "d" "q" 2 = (.ok t, st2) := by
  have hB : BackendTotal envLoop := fun n nm args => ⟨⟨[some "x"], "r"⟩, rfl⟩
  have hW : AllWellShaped envLoop := by
    intro n tc h
    have h2 : tc = tcGen "c1" "t" := by simpa [envLoop] using h
    rw [h2]
    rfl
  have hSum : SummarizeTotal envLoop := fun n s => ⟨"s", rfl⟩
  exact ⟨(process_query_total envLoop stNoConn "d" "q" 2 hB hW hSum).1 rfl,
    (process_query_total envLoop stConn "d" "q" 2 hB hW hSum).2 rfl⟩

theorem pqLoop_history (env : Env) (sid : String) (u : Message) :
    ∀ (fuel : Nat) (st : ClientState) (ss : SessionState) (msgs : List Message)
      (t : String) (st2 : ClientState),
      pqLoop env sid u st ss msgs fuel = (.ok t, st2) →
      ∃ (a : Message) (ss2 : SessionState) (n0 n2 : Nat),
        a.role = .assistant ∧ a.toolCallId = none ∧
        (a.toolCalls = none ∨ a.toolCalls = some none) ∧
        summarizeIfNeeded env n0 ⟨ss.history ++ [u, a], ss.summary⟩ 8000 = (.ok ss2, n2) ∧
        sessLookup st2.sessions sid = some ss2 ∧
        ss2.history <:+ ss.history ++ [u, a] := by
  intro fuel
  induction fuel with
  | zero =>
    intro st ss msgs t st2 h
    rw [pqLoop] at h
    obtain ⟨-, ss2, n2, hs, hst2⟩ := finishTurn_cases env st sid ss u fallbackMsg
      fallbackText t st2 h
    refine ⟨fallbackMsg, ss2, st.sumCalls, n2, rfl, rfl, Or.inl rfl, hs, ?_, ?_⟩
    · rw [hst2]
      simp [commit, sessLookup]
    · exact summarizeIfNeeded_suffix env st.sumCalls _ 8000 ss2 n2 hs
  | succ n ih =>
    intro st ss msgs t st2 h
    cases hemp : (env.modelStep st.roundCalls).toolCalls.isEmpty with
    | true =>
      rw [pqLoop] at h
      simp only [hemp, if_true] at h
      obtain ⟨-, ss2, n2, hs, hst2⟩ := finishTurn_cases env
        { st with roundCalls := st.roundCalls + 1 } sid ss u
        (assistantDict (env.modelStep st.roundCalls))
        ((env.modelStep st.roundCalls).content.getD "") t st2 h
      refine ⟨assistantDict (env.modelStep st.roundCalls), ss2,
        ({ st with roundCalls := st.roundCalls + 1 } : ClientState).sumCalls, n2,
        rfl, rfl, ?_, hs, ?_, ?_⟩
      · simp [assistantDict, hemp]
      · rw [hst2]
        simp [commit, sessLookup]
      · exact summarizeIfNeeded_suffix env _ _ 8000 ss2 n2 hs
    | false =>
      rw [pqLoop] at h
      simp only [hemp, Bool.false_eq_true, if_false] at h
      cases hr : (runRound env st.toolCache st.backendCalls
          (env.modelStep st.roundCalls).toolCalls (env.sched st.roundCalls)).result with
      | error e =>
        rw [hr] at h
        simp at h
      | ok tmsgs =>
        rw [hr] at h
        exact ih _ _ _ _ _ h

/-- C10: every completed `process_query` call extends the history by
exactly the user message and one terminal assistant message (which never
carries tool calls and is not a tool message), hands that extended history
to the compactor, and stores the compactor output — whose history is a
suffix of the extended one — so tool traffic never reaches the session
history. -/
theorem history_two_entries (env : Env) (st : ClientState) (sid q : String) (R : Nat)
    (t : String) (st2 : ClientState) (hS : st.hasSession = true)
    (h : process_query env st sid q R = (.ok t, st2)) :
    ∃ (a : Message) (ss2 : SessionState) (n0 n2 : Nat),
      a.role = .assistant ∧ a.toolCallId = none ∧
      (a.toolCalls = none ∨ a.toolCalls = some none) ∧
      summarizeIfNeeded env n0
          ⟨(getSess st sid).history ++ [mkUserMsg q, a], (getSess st sid).summary⟩ 8000
        = (.ok ss2, n2) ∧
      sessLookup st2.sessions sid = some ss2 ∧
      ss2.history <:+ (getSess st sid).history ++ [mkUserMsg q, a] := by
  simp only [process_query, hS, if_true] at h
  have := pqLoop_history env sid (mkUserMsg q) R (registerSession st sid)
    (getSess (registerSession st sid) sid) (initialMessages (getSess (registerSession st sid) sid) q)
    t st2 h
  rwa [registerSession_lookup st sid] at this

/-- C10 witness: a direct-answer turn persists exactly the user message
and the assistant answer. -/
theorem history_two_entries_witness :
    ∃ (a : Message) (ss2 : SessionState) (n0 n2 : Nat),
      a.role = .assistant ∧ a.toolCallId = none ∧
      (a.toolCalls = none ∨ a.toolCalls = some none) ∧
      summarizeIfNeeded envFinal n0
          ⟨(getSess stConn "d").history ++ [mkUserMsg "q", a], (getSess stConn "d").summary⟩
          8000
        = (.ok ss2, n2) ∧
      sessLookup (process_query envFinal stConn "d" "q" 6).2.sessions "d" = some ss2 ∧
      ss2.history <:+ (getSess stConn "d").history ++ [mkUserMsg "q", a] :=
  history_two_entries envFinal stConn "d" "q" 6 "hello"
    (process_query envFinal stConn "d" "q" 6).2 rfl rfl

/-- C4 amended witness: the failing round propagates "boom", caches only
the sibling key, and made both backend calls. -/
theorem tool_failure_propagates_witness :
    (runRound envFail [] 0 [tcGen "c1" "a", tcGen "c2" "b"] [1, 0]).result
      = .error (.toolCallError "boom") ∧
    (runRound envFail [] 0 [tcGen "c1" "a", tcGen "c2" "b"] [1, 0]).cache
      = cacheInsert [] (cacheKeyOf "b" []) "okb" ∧
    cacheLookup (runRound envFail [] 0 [tcGen "c1" "a", tcGen "c2" "b"] [1, 0]).cache
      (cacheKeyOf "a" []) = none ∧
    (runRound envFail [] 0 [tcGen "c1" "a", tcGen "c2" "b"] [1, 0]).calls = 2 := by
  have h := tool_failure_propagates envFail [] 0 [1, 0] (tcGen "c1" "a") (tcGen "c2" "b")
    [] [] "boom" ⟨[some "okb"], "r"⟩ rfl rfl (by decide) rfl rfl rfl rfl
  exact h

end ClientSse
